import Mathlib

/-!
Verification of the MSCEqF repository's specification against its source.

The development has two parts:

* `MSCEqF.DataParser`: a shallow embedding of `src/include/utils/data_parser.hpp`
  (the sensor-log ingestion component).  Floating point timestamps are modelled
  as exact rationals; the opaque sensor payloads (decoded images, quaternion
  normalisation of the groundtruth rotation — out of scope for every claim,
  which concern timestamps and record identity only) are carried as plain data.

* `MSCEqF.Symmetry`: the symmetry subsystem.  The repository ships only the
  declaration header `src/include/msceqf/symmetry/symmetry.hpp`; the bodies of
  `phi`, `lift`, `curvatureCorrection`, the state types and the algebraic
  primitives live in translation units that are not part of the given sources.
  Those definitions are therefore modelled from the specification (each such
  definition carries a doc comment starting with `Modelled from the spec:`).
-/

namespace MSCEqF

namespace DataParser

/-- Imu reading as stored by the parser (`msceqf::Imu`): timestamp, angular
velocity and linear acceleration.  Scalars are modelled as rationals. -/
structure Imu where
  timestamp : ℚ
  ang : Fin 3 → ℚ
  acc : Fin 3 → ℚ
  deriving DecidableEq

/-- Camera reading as stored by the parser (`msceqf::Camera`): timestamp and
image.  The decoded image payload (`cv::imread`) and the all-ones mask are
abstracted to the image file path the parser reads from. -/
structure Camera where
  timestamp : ℚ
  imageFile : String
  deriving DecidableEq

/-- Groundtruth record (`msceqf::Groundtruth`): timestamp, rotation of the IMU
frame in the global frame (components as parsed; Eigen's floating point
`normalize()` is out of scope for the claims, which concern timestamps only),
position, velocity and the two biases. -/
structure Groundtruth where
  timestamp : ℚ
  q : Fin 4 → ℚ
  p : Fin 3 → ℚ
  v : Fin 3 → ℚ
  bw : Fin 3 → ℚ
  ba : Fin 3 → ℚ
  deriving DecidableEq

/-- Raw fields extracted from one row of the IMU csv file, after the
header-index association (`getIndices`) has selected the columns
`[t, ang_x, ang_y, ang_z, acc_x, acc_y, acc_z]`. -/
structure ImuRaw where
  t : ℚ
  angx : ℚ
  angy : ℚ
  angz : ℚ
  accx : ℚ
  accy : ℚ
  accz : ℚ
  deriving DecidableEq

/-- Raw fields extracted from one row of the groundtruth csv file, after the
header-index association has selected the columns
`[t, q_x, q_y, q_z, q_w, p_x, p_y, p_z, v_x, v_y, v_z, bw_x, bw_y, bw_z,
ba_x, ba_y, ba_z]`. -/
structure GtRaw where
  t : ℚ
  qx : ℚ
  qy : ℚ
  qz : ℚ
  qw : ℚ
  px : ℚ
  py : ℚ
  pz : ℚ
  vx : ℚ
  vy : ℚ
  vz : ℚ
  bwx : ℚ
  bwy : ℚ
  bwz : ℚ
  bax : ℚ
  bay : ℚ
  baz : ℚ
  deriving DecidableEq

/-- Raw fields extracted from one row of the image csv file:
`[t, img_filename]`. -/
structure CamRaw where
  t : ℚ
  imageName : String
  deriving DecidableEq

/-- Record construction step of `dataParser::parseAndCheckImu` (lines 306-321):
the timestamp is divided by `1e9` when it exceeds `10e12`, the angular velocity
and acceleration components are stored as read. -/
def mkImu (r : ImuRaw) : Imu where
  timestamp := if r.t > 10e12 then r.t / 1e9 else r.t
  ang := ![r.angx, r.angy, r.angz]
  acc := ![r.accx, r.accy, r.accz]

/-- Record construction step of `dataParser::parseAndCheckGt` (lines 230-264):
the timestamp is divided by `1e9` when it exceeds `10e12`; velocity and biases
are filled only when the corresponding header variant provides them, and stay
at `Vector3::Zero()` otherwise. -/
def mkGt (haveVelocity haveBias : Bool) (r : GtRaw) : Groundtruth where
  timestamp := if r.t > 10e12 then r.t / 1e9 else r.t
  q := ![r.qx, r.qy, r.qz, r.qw]
  p := ![r.px, r.py, r.pz]
  v := if haveVelocity then ![r.vx, r.vy, r.vz] else ![0, 0, 0]
  bw := if haveBias then ![r.bwx, r.bwy, r.bwz] else ![0, 0, 0]
  ba := if haveBias then ![r.bax, r.bay, r.baz] else ![0, 0, 0]

/-- Record construction step of `dataParser::parseAndCheckImages`
(lines 361-374): the timestamp is divided by `1e9` when it exceeds `10e12`
and the configured time offset is added afterwards (`cam.timestamp_ +=
timeoffset_`); the image is read from the data folder joined with the
per-row file name. -/
def mkCam (folder : String) (timeoffset : ℚ) (r : CamRaw) : Camera where
  timestamp := (if r.t > 10e12 then r.t / 1e9 else r.t) + timeoffset
  imageFile := folder ++ r.imageName

/-- Stored-data construction of `dataParser::parseAndCheckImu`: map the record
construction over all data rows, then `std::sort` by the timestamp order
`operator<`. -/
def parseAndCheckImu (rows : List ImuRaw) : List Imu :=
  (rows.map mkImu).mergeSort fun a b => decide (a.timestamp ≤ b.timestamp)

/-- Stored-data construction of `dataParser::parseAndCheckGt`: map the record
construction over all data rows, then `std::sort` by `Groundtruth::operator<`
(timestamp order). -/
def parseAndCheckGt (haveVelocity haveBias : Bool) (rows : List GtRaw) :
    List Groundtruth :=
  (rows.map (mkGt haveVelocity haveBias)).mergeSort fun a b =>
    decide (a.timestamp ≤ b.timestamp)

/-- Stored-data construction of `dataParser::parseAndCheckImages`: map the
record construction over all data rows, then `std::sort` by timestamp order. -/
def parseAndCheckImages (folder : String) (timeoffset : ℚ) (rows : List CamRaw) :
    List Camera :=
  (rows.map (mkCam folder timeoffset)).mergeSort fun a b =>
    decide (a.timestamp ≤ b.timestamp)

/-- Mutable state of the parser that `consumeSensorReadingAt` operates on:
the stored IMU data and the stored camera data. -/
structure ParserState where
  imuData : List Imu
  imageData : List Camera
  deriving DecidableEq

/-- Combination of `std::find_if` followed by `erase` on the found iterator:
locate the first element satisfying `p` and return it together with the list
with exactly that occurrence removed; `none` when no element satisfies `p`. -/
def extractFirst (p : α → Bool) : List α → Option (α × List α)
  | [] => none
  | x :: xs =>
    if p x then some (x, xs)
    else
      match extractFirst p xs with
      | none => none
      | some (y, ys) => some (y, x :: ys)

/-- Embedding of `dataParser::consumeSensorReadingAt` (lines 434-458): search
the IMU data for the first reading with exactly the given timestamp; when found
return it and erase it (camera data untouched).  Otherwise do the same on the
camera data.  When neither holds, throw (modelled as `Except.error`); the
stored data is returned unchanged only through the absence of a new state. -/
def consumeSensorReadingAt (s : ParserState) (t : ℚ) :
    Except String ((Imu ⊕ Camera) × ParserState) :=
  match extractFirst (fun imu => imu.timestamp == t) s.imuData with
  | some (i, rest) => .ok (.inl i, ⟨rest, s.imageData⟩)
  | none =>
    match extractFirst (fun cam => cam.timestamp == t) s.imageData with
    | some (c, rest) => .ok (.inr c, ⟨s.imuData, rest⟩)
    | none => .error "No sensor reading found at timestamp"

/-- Loop of `dataParser::getCloserGroundtruthAt` (lines 466-483), with the
iterator's predecessor made explicit: walk the stored groundtruth list keeping
the element just before the cursor; at the first element with timestamp
strictly greater than `t`, return it, or its predecessor when the predecessor
exists and is strictly closer to `t`; throw when the walk falls off the end. -/
def getCloserAux (t : ℚ) : Option Groundtruth → List Groundtruth →
    Except String Groundtruth
  | _, [] => .error "No groundtruth data found at timestamp"
  | prev, g :: rest =>
    if g.timestamp > t then
      match prev with
      | some q => if |g.timestamp - t| > |q.timestamp - t| then .ok q else .ok g
      | none => .ok g
    else getCloserAux t (some g) rest

/-- Embedding of `dataParser::getCloserGroundtruthAt`: start the walk at the
beginning of the stored groundtruth data, with no predecessor. -/
def getCloserGroundtruthAt (l : List Groundtruth) (t : ℚ) :
    Except String Groundtruth :=
  getCloserAux t none l

/-- Claim-side description of the timestamp rescaling (C9): raw values above
`10e12` are nanoseconds and are rescaled to seconds by division by `1e9`,
smaller values are stored as-is. -/
def specRescaledTimestamp (raw : ℚ) : ℚ :=
  if raw > 10e12 then raw / 1e9 else raw

theorem extractFirst_eq_some (p : α → Bool) (l1 : List α) (x : α) (l2 : List α)
    (hx : p x = true) (h1 : ∀ y ∈ l1, p y = false) :
    extractFirst p (l1 ++ x :: l2) = some (x, l1 ++ l2) := by
  induction l1 with
  | nil => simp [extractFirst, hx]
  | cons a l ih =>
    have ha : p a = false := h1 a (by simp)
    have ih' := ih fun y hy => h1 y (by simp [hy])
    simp [extractFirst, ha, ih']

theorem extractFirst_eq_none (p : α → Bool) (l : List α)
    (h : ∀ y ∈ l, p y = false) : extractFirst p l = none := by
  induction l with
  | nil => rfl
  | cons a l ih =>
    have ha : p a = false := h a (by simp)
    have ih' := ih fun y hy => h y (by simp [hy])
    simp [extractFirst, ha, ih']

/-- Concrete groundtruth record with a given timestamp and trivial payload,
used to evaluate the data parser on concrete inputs. -/
def gtAt (ts : ℚ) : Groundtruth :=
  ⟨ts, ![0, 0, 0, 1], ![0, 0, 0], ![0, 0, 0], ![0, 0, 0], ![0, 0, 0]⟩

/-- C8: `consumeSensorReadingAt(t)` returns the stored IMU reading whose
timestamp equals `t` exactly (the first such) and erases exactly it, leaving
the camera data unmodified — in particular when a camera reading shares the
timestamp; otherwise it returns and erases the camera reading with timestamp
`t`, leaving the IMU data unmodified; when neither exists it throws a runtime
error and no mutated state is produced. -/
theorem consumeSensorReadingAt_spec (s : ParserState) (t : ℚ) :
    (∀ l1 i l2, s.imuData = l1 ++ i :: l2 → i.timestamp = t →
        (∀ j ∈ l1, j.timestamp ≠ t) →
        consumeSensorReadingAt s t = .ok (.inl i, ⟨l1 ++ l2, s.imageData⟩)) ∧
    ((∀ j ∈ s.imuData, j.timestamp ≠ t) →
      ∀ l1 c l2, s.imageData = l1 ++ c :: l2 → c.timestamp = t →
        (∀ j ∈ l1, j.timestamp ≠ t) →
        consumeSensorReadingAt s t = .ok (.inr c, ⟨s.imuData, l1 ++ l2⟩)) ∧
    ((∀ j ∈ s.imuData, j.timestamp ≠ t) → (∀ j ∈ s.imageData, j.timestamp ≠ t) →
      consumeSensorReadingAt s t =
        .error "No sensor reading found at timestamp") := by
  refine ⟨?_, ?_, ?_⟩
  · intro l1 i l2 hs hi h1
    have he : extractFirst (fun imu => imu.timestamp == t) s.imuData =
        some (i, l1 ++ l2) := by
      rw [hs]
      exact extractFirst_eq_some _ l1 i l2 (by simp [hi])
        (fun y hy => by simpa using h1 y hy)
    simp [consumeSensorReadingAt, he]
  · intro himu l1 c l2 hs hc h1
    have he : extractFirst (fun imu => imu.timestamp == t) s.imuData = none :=
      extractFirst_eq_none _ _ (fun y hy => by simpa using himu y hy)
    have he2 : extractFirst (fun cam => cam.timestamp == t) s.imageData =
        some (c, l1 ++ l2) := by
      rw [hs]
      exact extractFirst_eq_some _ l1 c l2 (by simp [hc])
        (fun y hy => by simpa using h1 y hy)
    simp [consumeSensorReadingAt, he, he2]
  · intro himu hcam
    have he : extractFirst (fun imu => imu.timestamp == t) s.imuData = none :=
      extractFirst_eq_none _ _ (fun y hy => by simpa using himu y hy)
    have he2 : extractFirst (fun cam => cam.timestamp == t) s.imageData =
        none :=
      extractFirst_eq_none _ _ (fun y hy => by simpa using hcam y hy)
    simp [consumeSensorReadingAt, he, he2]

/-- Witness for C8: on a stored state holding one IMU reading and one camera
reading that share timestamp `1`, consuming at `1` returns the IMU reading,
erases it, and leaves the camera data untouched. -/
theorem consumeSensorReadingAt_spec_witness :
    consumeSensorReadingAt
      ⟨[⟨1, ![0, 0, 0], ![0, 0, 0]⟩], [⟨1, "img0"⟩]⟩ 1 =
      .ok (.inl ⟨1, ![0, 0, 0], ![0, 0, 0]⟩, ⟨[], [⟨1, "img0"⟩]⟩) :=
  (consumeSensorReadingAt_spec ⟨[⟨1, ![0, 0, 0], ![0, 0, 0]⟩], [⟨1, "img0"⟩]⟩
    1).1 [] ⟨1, ![0, 0, 0], ![0, 0, 0]⟩ [] rfl rfl (by simp)

theorem getCloserAux_error (t : ℚ) (l : List Groundtruth)
    (h : ∀ g ∈ l, ¬ g.timestamp > t) (pr : Option Groundtruth) :
    getCloserAux t pr l = .error "No groundtruth data found at timestamp" := by
  induction l generalizing pr with
  | nil => rfl
  | cons a l ih =>
    have ha : ¬ a.timestamp > t := h a (by simp)
    simp only [getCloserAux, if_neg ha]
    exact ih (fun g hg => h g (by simp [hg])) _

theorem getCloserAux_found (t : ℚ) (l1 : List Groundtruth)
    (h1 : ∀ j ∈ l1, ¬ j.timestamp > t) :
    ∀ (pr : Option Groundtruth) (p g : Groundtruth) (l2 : List Groundtruth),
      ¬ p.timestamp > t → g.timestamp > t →
      getCloserAux t pr (l1 ++ p :: g :: l2) =
        .ok (if |g.timestamp - t| > |p.timestamp - t| then p else g) := by
  induction l1 with
  | nil =>
    intro pr p g l2 hp hg
    simp only [List.nil_append, getCloserAux, if_neg hp, if_pos hg]
    exact (apply_ite Except.ok _ p g).symm
  | cons a l ih =>
    intro pr p g l2 hp hg
    have ha : ¬ a.timestamp > t := h1 a (by simp)
    simp only [List.cons_append, getCloserAux, if_neg ha]
    exact ih (fun j hj => h1 j (by simp [hj])) _ p g l2 hp hg

/-- C10: `getCloserGroundtruthAt(t)` locates the first stored groundtruth
record with timestamp strictly greater than `t`; when it has no predecessor it
is returned, otherwise the one of it and its immediate predecessor whose
timestamp is strictly closer to `t` is returned (the later one on ties); and a
runtime error is thrown exactly when no stored record has timestamp strictly
greater than `t`, regardless of how close the records at or before `t` are. -/
theorem getCloserGroundtruthAt_spec (l : List Groundtruth) (t : ℚ) :
    (∀ g l2, l = g :: l2 → g.timestamp > t →
        getCloserGroundtruthAt l t = .ok g) ∧
    (∀ l1 p g l2, l = l1 ++ p :: g :: l2 → (∀ j ∈ l1, ¬ j.timestamp > t) →
        ¬ p.timestamp > t → g.timestamp > t →
        getCloserGroundtruthAt l t =
          .ok (if |g.timestamp - t| > |p.timestamp - t| then p else g)) ∧
    ((∀ g ∈ l, ¬ g.timestamp > t) →
        getCloserGroundtruthAt l t =
          .error "No groundtruth data found at timestamp") := by
  refine ⟨?_, ?_, ?_⟩
  · intro g l2 hl hg
    rw [getCloserGroundtruthAt, hl]
    simp only [getCloserAux, if_pos hg]
  · intro l1 p g l2 hl h1 hp hg
    rw [getCloserGroundtruthAt, hl]
    exact getCloserAux_found t l1 h1 none p g l2 hp hg
  · intro h
    exact getCloserAux_error t l h none

/-- Witness for C10: with stored records at timestamps `2` and `6` and query
`3`, the first record with timestamp greater than `3` is the one at `6`, but
its predecessor at `2` is strictly closer, so the latter is returned even
though its timestamp is at or before the query. -/
theorem getCloserGroundtruthAt_spec_witness :
    getCloserGroundtruthAt [gtAt 2, gtAt 6] 3 = .ok (gtAt 2) := by
  have h := (getCloserGroundtruthAt_spec [gtAt 2, gtAt 6] 3).2.1
    [] (gtAt 2) (gtAt 6) [] rfl (by simp) (by decide) (by decide)
  rw [if_pos (by norm_num [gtAt])] at h
  exact h

/-- C9: the stored timestamps produced by the three parsing routines are
exactly (as multisets, since storage sorts the records) the raw row
timestamps rescaled from nanoseconds to seconds when they exceed `10e12` and
kept as-is otherwise; the camera timestamps additionally have the configured
time offset added after this rescaling, while the IMU and groundtruth
timestamps have no offset applied. -/
theorem parse_timestamp_rescaling (haveVelocity haveBias : Bool)
    (folder : String) (timeoffset : ℚ) (imuRows : List ImuRaw)
    (gtRows : List GtRaw) (camRows : List CamRaw) :
    List.Perm ((parseAndCheckImu imuRows).map Imu.timestamp)
      (imuRows.map fun r => specRescaledTimestamp r.t) ∧
    List.Perm ((parseAndCheckGt haveVelocity haveBias gtRows).map
        Groundtruth.timestamp)
      (gtRows.map fun r => specRescaledTimestamp r.t) ∧
    List.Perm ((parseAndCheckImages folder timeoffset camRows).map
        Camera.timestamp)
      (camRows.map fun r => specRescaledTimestamp r.t + timeoffset) := by
  refine ⟨?_, ?_, ?_⟩
  · rw [parseAndCheckImu]
    have h2 : (imuRows.map mkImu).map Imu.timestamp
        = imuRows.map fun r => specRescaledTimestamp r.t := by
      simp [List.map_map, Function.comp_def, mkImu, specRescaledTimestamp]
    rw [← h2]
    exact (List.mergeSort_perm _ _).map _
  · rw [parseAndCheckGt]
    have h2 : (gtRows.map (mkGt haveVelocity haveBias)).map Groundtruth.timestamp
        = gtRows.map fun r => specRescaledTimestamp r.t := by
      simp [List.map_map, Function.comp_def, mkGt, specRescaledTimestamp]
    rw [← h2]
    exact (List.mergeSort_perm _ _).map _
  · rw [parseAndCheckImages]
    have h2 : (camRows.map (mkCam folder timeoffset)).map Camera.timestamp
        = camRows.map fun r => specRescaledTimestamp r.t + timeoffset := by
      simp [List.map_map, Function.comp_def, mkCam, specRescaledTimestamp]
    rw [← h2]
    exact (List.mergeSort_perm _ _).map _

end DataParser

namespace Symmetry

/-- Vectors in three dimensions, with exact rational scalars standing for the
implementation's doubles. -/
abbrev Vec3 := Fin 3 → ℚ

/-- Square matrices of dimension three over the rationals. -/
abbrev Mat3 := Matrix (Fin 3) (Fin 3) ℚ

/-- Modelled from the spec: the extended pose of §3 "Rotation/Pose
representation" — rotation, velocity and position bundled into one group
element (the 5×5 homogeneous matrix analogue), parametrised by the scalar
ring.  The corresponding implementation lives outside the given sources. -/
structure SE23 (α : Type) where
  R : Matrix (Fin 3) (Fin 3) α
  v : Fin 3 → α
  p : Fin 3 → α

/-- Modelled from the spec: composition of extended poses, the product of the
corresponding 5×5 homogeneous matrices `[R v p; 0 1 0; 0 0 1]`. -/
def SE23.comp [CommRing α] (a b : SE23 α) : SE23 α :=
  ⟨a.R * b.R, a.R.mulVec b.v + a.v, a.R.mulVec b.p + a.p⟩

/-- Modelled from the spec: the identity extended pose. -/
def SE23.one [CommRing α] : SE23 α := ⟨1, 0, 0⟩

/-- Modelled from the spec: the physical state `SystemState` of §3 — IMU-frame
orientation, position and velocity in the fixed reference frame, gyroscope and
accelerometer bias, camera-IMU extrinsic calibration, camera-IMU time offset,
and the mapping from feature identifier to estimated 3D anchor position
(represented as an association list; §3 notes insertion order is irrelevant,
and no claim depends on it). -/
structure SystemState where
  R : Mat3
  p : Vec3
  v : Vec3
  bw : Vec3
  ba : Vec3
  SR : Mat3
  Sp : Vec3
  toff : ℚ
  features : List (ℕ × Vec3)

/-- Modelled from the spec: the symmetry-group element `MSCEqFState` of §2/§3,
a structured composition of an extended pose block `A`, a calibration/bias
rotation block `B`, and the auxiliary vector-space blocks: extrinsic
calibration translation `e`, time offset `tau`, and one feature-anchor
translation per feature identifier `f`. -/
structure MSCEqFState where
  A : SE23 ℚ
  B : Mat3
  e : Vec3
  tau : ℚ
  f : ℕ → Vec3

/-- Modelled from the spec: group composition of two `MSCEqFState` elements.
The extended pose blocks compose as extended poses, the calibration/bias
rotation blocks compose as rotations, and the vector-space blocks compose
semidirectly under the rotation of the leading factor — exactly what is needed
for the closure invariant of §3 and the left-action law of §4.2. -/
def compose (X Y : MSCEqFState) : MSCEqFState :=
  ⟨X.A.comp Y.A, X.B * Y.B, X.B.mulVec Y.e + X.e, X.tau + Y.tau,
    fun i => X.A.R.mulVec (Y.f i) + X.f i⟩

/-- Modelled from the spec: the identity element of the symmetry group,
corresponding to the chosen origin state (§3). -/
def identity : MSCEqFState := ⟨SE23.one, 1, 0, 0, fun _ => 0⟩

/-- Modelled from the spec: the action operator `phi(X, xi)` of §4.2.  The
pose sub-block of `X` transforms the pose and velocity of `xi` by standard
rigid-motion composition; the calibration/bias rotation sub-block corrects the
two biases and the extrinsic calibration (the re-mapping role the spec assigns
to the structure matrix `D` is realised here by letting the block act directly
on each of those slots); the vector-space sub-blocks act additively on the
time offset, the extrinsic translation and the feature anchors, the latter
under the pose transform. -/
def phi (X : MSCEqFState) (xi : SystemState) : SystemState :=
  ⟨X.A.R * xi.R,
    X.A.R.mulVec xi.p + X.A.p,
    X.A.R.mulVec xi.v + X.A.v,
    X.B.mulVec xi.bw,
    X.B.mulVec xi.ba,
    X.B * xi.SR,
    X.B.mulVec xi.Sp + X.e,
    xi.toff + X.tau,
    xi.features.map fun q => (q.1, X.A.R.mulVec q.2 + X.A.p + X.f q.1)⟩

/-- Modelled from the spec: a rotation block is valid when it is orthonormal;
this is the exact-arithmetic form of §3's "rotation components are always
normalized" invariant (each column of unit norm, mutually orthogonal). -/
def IsOrthonormal (M : Mat3) : Prop := M.transpose * M = 1

instance (M : Mat3) : Decidable (IsOrthonormal M) := by
  unfold IsOrthonormal; infer_instance

/-- Modelled from the spec: the 5×5 process-wide constant structure matrix `D`
of §3: the structure coefficients of the extended-pose sub-group, a single
unit coefficient feeding the velocity slot (column 3) of the homogeneous
representation into the derivative of the position slot (column 4), i.e. the
`ṗ = v` coupling of the extended-pose kinematics. -/
def D : Matrix (Fin 5) (Fin 5) ℚ := fun i j => if i = 3 ∧ j = 4 then 1 else 0

/-- C1: the action operator is a left group action:
`phi X1 (phi X2 xi) = phi (compose X1 X2) xi`.  In the exact-arithmetic model
the two sides are equal on the nose, for all group elements (valid ones in
particular) and all physical states — hence certainly within any numerical
tolerance. -/
theorem phi_left_action (X1 X2 : MSCEqFState) (xi : SystemState) :
    phi X1 (phi X2 xi) = phi (compose X1 X2) xi := by
  simp only [phi, compose, SE23.comp, SystemState.mk.injEq, List.map_map]
  refine ⟨?_, ?_, ?_, ?_, ?_, ?_, ?_, ?_, ?_⟩
  · rw [Matrix.mul_assoc]
  · rw [Matrix.mulVec_add, Matrix.mulVec_mulVec, add_assoc]
  · rw [Matrix.mulVec_add, Matrix.mulVec_mulVec, add_assoc]
  · rw [Matrix.mulVec_mulVec]
  · rw [Matrix.mulVec_mulVec]
  · rw [Matrix.mul_assoc]
  · rw [Matrix.mulVec_add, Matrix.mulVec_mulVec, add_assoc]
  · ring
  · refine List.map_congr_left fun q _ => ?_
    simp only [Function.comp_apply, Prod.mk.injEq, true_and]
    rw [Matrix.mulVec_add, Matrix.mulVec_add, Matrix.mulVec_mulVec]
    abel

/-- C5: the identity group element acts trivially: `phi identity xi = xi`,
exactly (the model keeps rotations exactly normalized, so no normalization
slack is needed). -/
theorem phi_identity (xi : SystemState) : phi identity xi = xi := by
  simp [phi, identity, SE23.one, Matrix.one_mulVec]

/-- C7: the action preserves the feature-identifier keys of the feature-anchor
mapping: `phi X xi` has exactly the keys of `xi`, in the same order (hence the
same set of keys); only the associated anchor values are transformed. -/
theorem phi_preserves_feature_keys (X : MSCEqFState) (xi : SystemState) :
    (phi X xi).features.map Prod.fst = xi.features.map Prod.fst := by
  simp [phi, List.map_map, Function.comp_def]

/-- C4: the action never denormalizes rotations: if the rotation blocks of `X`
and the rotation components of `xi` are orthonormal, then both rotation
components of `phi X xi` (IMU orientation and extrinsic calibration rotation)
are orthonormal — exactly, not merely within `1e-12`. -/
theorem phi_rotation_normalized (X : MSCEqFState) (xi : SystemState)
    (hA : IsOrthonormal X.A.R) (hB : IsOrthonormal X.B)
    (hR : IsOrthonormal xi.R) (hS : IsOrthonormal xi.SR) :
    IsOrthonormal (phi X xi).R ∧ IsOrthonormal (phi X xi).SR := by
  constructor
  · show IsOrthonormal (X.A.R * xi.R)
    unfold IsOrthonormal at *
    rw [Matrix.transpose_mul, Matrix.mul_assoc, ← Matrix.mul_assoc X.A.R.transpose,
      hA, Matrix.one_mul, hR]
  · show IsOrthonormal (X.B * xi.SR)
    unfold IsOrthonormal at *
    rw [Matrix.transpose_mul, Matrix.mul_assoc, ← Matrix.mul_assoc X.B.transpose,
      hB, Matrix.one_mul, hS]

theorem isOrthonormal_rotZ : IsOrthonormal !![0, -1, 0; 1, 0, 0; 0, 0, 1] := by
  unfold IsOrthonormal
  rw [show (!![0, -1, 0; 1, 0, 0; 0, 0, 1] : Mat3).transpose
      = !![0, 1, 0; -1, 0, 0; 0, 0, 1] from by
    ext i j
    fin_cases i <;> fin_cases j <;> rfl]
  rw [Matrix.mul_fin_three, Matrix.one_fin_three]
  norm_num

theorem isOrthonormal_rotX : IsOrthonormal !![1, 0, 0; 0, 0, -1; 0, 1, 0] := by
  unfold IsOrthonormal
  rw [show (!![1, 0, 0; 0, 0, -1; 0, 1, 0] : Mat3).transpose
      = !![1, 0, 0; 0, 0, 1; 0, -1, 0] from by
    ext i j
    fin_cases i <;> fin_cases j <;> rfl]
  rw [Matrix.mul_fin_three, Matrix.one_fin_three]
  norm_num

theorem isOrthonormal_halfTurnX : IsOrthonormal !![1, 0, 0; 0, -1, 0; 0, 0, -1] := by
  unfold IsOrthonormal
  rw [show (!![1, 0, 0; 0, -1, 0; 0, 0, -1] : Mat3).transpose
      = !![1, 0, 0; 0, -1, 0; 0, 0, -1] from by
    ext i j
    fin_cases i <;> fin_cases j <;> rfl]
  rw [Matrix.mul_fin_three, Matrix.one_fin_three]
  norm_num

theorem isOrthonormal_one : IsOrthonormal 1 := by
  unfold IsOrthonormal
  simp

/-- Witness for C4: a concrete group element whose pose block carries a
quarter-turn about the z axis and a concrete state rotated a half-turn about
the x axis; the action keeps both rotation components orthonormal. -/
theorem phi_rotation_normalized_witness :
    IsOrthonormal (phi
      ⟨⟨!![0, -1, 0; 1, 0, 0; 0, 0, 1], 0, 0⟩, !![1, 0, 0; 0, 0, -1; 0, 1, 0],
        0, 0, fun _ => 0⟩
      ⟨!![1, 0, 0; 0, -1, 0; 0, 0, -1], 0, 0, 0, 0, 1, 0, 0, []⟩).R ∧
    IsOrthonormal (phi
      ⟨⟨!![0, -1, 0; 1, 0, 0; 0, 0, 1], 0, 0⟩, !![1, 0, 0; 0, 0, -1; 0, 1, 0],
        0, 0, fun _ => 0⟩
      ⟨!![1, 0, 0; 0, -1, 0; 0, 0, -1], 0, 0, 0, 0, 1, 0, 0, []⟩).SR :=
  phi_rotation_normalized _ _ isOrthonormal_rotZ isOrthonormal_rotX
    isOrthonormal_halfTurnX isOrthonormal_one

/-- Modelled from the spec: raw inertial sample `Imu` (§3): angular velocity
and specific-force 3-vectors plus timestamp. -/
structure Imu where
  ang : Vec3
  acc : Vec3
  timestamp : ℚ

/-- Modelled from the spec: the Lie-algebra element `SystemStateAlgebraMap`
(§3): one tangent-space value per structural slot — the extended-pose twist
(angular-rate slot `w`, specific-force slot `a`, and the velocity slot `nu`
required by the extended-pose generator, the coupling the structure matrix `D`
encodes), the bias rate, the two calibration rates, the time-offset rate and
the per-feature rates. -/
structure SystemStateAlgebraMap where
  w : Vec3
  a : Vec3
  nu : Vec3
  biasRate : Fin 6 → ℚ
  calibRateR : Vec3
  calibRateP : Vec3
  toffRate : ℚ
  featRate : ℕ → Vec3

/-- Modelled from the spec: the zero twist — every slot of the algebra element
at its zero tangent value. -/
def SystemStateAlgebraMap.zero : SystemStateAlgebraMap :=
  ⟨0, 0, 0, 0, 0, 0, 0, fun _ => 0⟩

/-- Modelled from the spec: the gravity vector entering the lift's gravity
compensation, with the conventional magnitude `9.81` on the vertical axis. -/
def gravityVector : Vec3 := ![0, 0, 981 / 100]

/-- Modelled from the spec: the lift operator `lift(xi, u)` of §4.3:
bias-compensate the raw gyroscope and accelerometer readings with `xi`'s
current bias estimates, form the extended-pose twist from the compensated
angular rate, the gravity-compensated specific force and the velocity term
required by the extended-pose generator, and produce zero generators for the
blocks with no direct dynamics (biases, calibration, time offset, feature
anchors). -/
def lift (xi : SystemState) (u : Imu) : SystemStateAlgebraMap :=
  ⟨u.ang - xi.bw, u.acc - xi.ba - gravityVector, xi.v, 0, 0, 0, 0, fun _ => 0⟩

/-- C2: in the stationary gravity-compensated scenario — `xi` with zero
velocity and zero biases, `u` with zero angular velocity and specific force
equal to the gravity vector — the lift is the zero twist.  The group element
`X` of the claim's scenario does not enter: `lift` reads only `xi` and `u`
(matching the declared signature `lift(xi, u)`), so the conclusion holds at
the group identity in particular. -/
theorem lift_stationary (xi : SystemState) (u : Imu)
    (hv : xi.v = 0) (hbw : xi.bw = 0) (hba : xi.ba = 0)
    (hang : u.ang = 0) (hacc : u.acc = gravityVector) :
    lift xi u = SystemStateAlgebraMap.zero := by
  simp [lift, SystemStateAlgebraMap.zero, hv, hbw, hba, hang, hacc]

/-- Witness for C2: a concrete stationary state (identity rotations, all
vectors zero, no features) and the concrete gravity-compensating IMU sample
produce the zero algebra element. -/
theorem lift_stationary_witness :
    lift ⟨1, 0, 0, 0, 0, 1, 0, 0, []⟩ ⟨0, gravityVector, 0⟩ =
      SystemStateAlgebraMap.zero :=
  lift_stationary ⟨1, 0, 0, 0, 0, 1, 0, 0, []⟩ ⟨0, gravityVector, 0⟩
    rfl rfl rfl rfl rfl

/-- Modelled from the spec: the curvature-correction operator
`curvatureCorrection(X, inn)` of §4.4.  The spec determines its contract —
`Gamma` is a square matrix of the innovation's dimension, depending only on
`X` and the block structure of `inn`, and is the trivial identity when `inn`
is empty — but gives no closed form for the second-order curvature terms
(§9 leaves even their composition point open).  Only the determined contract
is modelled; the associated theorem relies solely on the dimension contract,
not on the curvature terms. -/
def curvatureCorrection (X : MSCEqFState) (inn : List ℚ) :
    Matrix (Fin inn.length) (Fin inn.length) ℚ := 1

/-- C3: with an empty innovation vector the curvature correction is the
identity matrix of trivial (zero) dimension.  The second conjunct records that
this is forced by the dimension contract alone: every square matrix of the
empty innovation's dimension equals that identity, whatever the curvature
terms compute, so the empty-innovation call is necessarily a no-op. -/
theorem curvatureCorrection_empty (X : MSCEqFState) :
    curvatureCorrection X [] = 1 ∧
      ∀ M : Matrix (Fin (List.length ([] : List ℚ)))
        (Fin (List.length ([] : List ℚ))) ℚ, M = 1 := by
  refine ⟨rfl, fun M => ?_⟩
  funext i j
  exact absurd i.2 (by simp)

namespace Algebra

/-- Real 3-vectors: the tangent-space slots of the algebraic primitives live
over the reals, matching the analytic (trigonometric) closed forms of §4.1. -/
abbrev RVec3 := Fin 3 → ℝ

/-- Real 3×3 matrices. -/
abbrev RMat3 := Matrix (Fin 3) (Fin 3) ℝ

/-- Modelled from the spec: the skew-symmetric operator of §4.1, mapping a
3-vector to its antisymmetric 3×3 generator. -/
def skew (v : RVec3) : RMat3 :=
  !![0, -v 2, v 1; v 2, 0, -v 0; -v 1, v 0, 0]

/-- Modelled from the spec: the inverse "vee" operator of §4.1, reading the
3-vector back off an antisymmetric matrix. -/
def vee (M : RMat3) : RVec3 := ![M 2 1, M 0 2, M 1 0]

/-- Modelled from the spec: the rotation angle of a tangent vector — its
Euclidean norm. -/
noncomputable def angle (v : RVec3) : ℝ :=
  Real.sqrt (v 0 ^ 2 + v 1 ^ 2 + v 2 ^ 2)

/-- Modelled from the spec: the closed-form exponential map on the rotation
group (§4.1): the Rodrigues formula away from zero rotation angle, and the
Taylor-series fallback (second order, exact at the singular configuration) at
zero angle, so that no division by a vanishing angle occurs. -/
noncomputable def expSO3 (v : RVec3) : RMat3 :=
  if angle v = 0 then 1 + skew v + ((1 : ℝ) / 2) • (skew v * skew v)
  else 1 + (Real.sin (angle v) / angle v) • skew v
    + ((1 - Real.cos (angle v)) / angle v ^ 2) • (skew v * skew v)

/-- Modelled from the spec: the closed-form logarithm map on the rotation
group (§4.1): angle from the trace, axis from the antisymmetric part; it
returns the zero tangent element at singular/identity configurations (where
the sine of the recovered angle vanishes) rather than failing. -/
noncomputable def logSO3 (M : RMat3) : RVec3 :=
  if Real.sin (Real.arccos ((Matrix.trace M - 1) / 2)) = 0 then 0
  else (Real.arccos ((Matrix.trace M - 1) / 2) /
      (2 * Real.sin (Real.arccos ((Matrix.trace M - 1) / 2)))) •
    vee (M - M.transpose)

/-- Modelled from the spec: the set of rotations not at the cut locus of the
exponential map — exactly the rotations of angle strictly less than π, i.e.
the image under `expSO3` of the open ball of radius π where the logarithm is
valid (§4.1's "open neighborhood of the identity"). -/
def notAtCutLocus (M : RMat3) : Prop :=
  ∃ v : RVec3, angle v < Real.pi ∧ M = expSO3 v

theorem angle_nonneg (v : RVec3) : 0 ≤ angle v := Real.sqrt_nonneg _

theorem sq_angle (v : RVec3) : angle v ^ 2 = v 0 ^ 2 + v 1 ^ 2 + v 2 ^ 2 :=
  Real.sq_sqrt (by positivity)

theorem angle_eq_zero_iff (v : RVec3) : angle v = 0 ↔ v = 0 := by
  constructor
  · intro h
    have hsum : v 0 ^ 2 + v 1 ^ 2 + v 2 ^ 2 = 0 := by
      have := sq_angle v
      rw [h] at this
      linarith [this]
    have h0 : v 0 = 0 := by nlinarith [sq_nonneg (v 0), sq_nonneg (v 1), sq_nonneg (v 2)]
    have h1 : v 1 = 0 := by nlinarith [sq_nonneg (v 0), sq_nonneg (v 1), sq_nonneg (v 2)]
    have h2 : v 2 = 0 := by nlinarith [sq_nonneg (v 0), sq_nonneg (v 1), sq_nonneg (v 2)]
    funext i
    fin_cases i <;> assumption
  · intro h
    subst h
    simp [angle]

theorem skew_zero : skew 0 = 0 := by
  ext i j
  fin_cases i <;> fin_cases j <;>
    simp [skew, Matrix.vecHead, Matrix.vecTail]

theorem transpose_skew (v : RVec3) : (skew v).transpose = -skew v := by
  ext i j
  fin_cases i <;> fin_cases j <;> simp [skew]

theorem vee_skew (v : RVec3) : vee (skew v) = v := by
  funext i
  fin_cases i <;> simp [vee, skew]

theorem vee_smul (c : ℝ) (M : RMat3) : vee (c • M) = c • vee M := by
  funext i
  fin_cases i <;> simp [vee]

theorem trace_skew (v : RVec3) : (skew v).trace = 0 := by
  simp [skew, Matrix.trace, Matrix.diag, Fin.sum_univ_three]

theorem trace_skew_mul_skew (v : RVec3) :
    (skew v * skew v).trace = -2 * angle v ^ 2 := by
  rw [sq_angle]
  simp [skew, Matrix.trace, Matrix.diag, Fin.sum_univ_three, Matrix.mul_apply]
  ring

theorem skew_mul_skew_transpose (v : RVec3) :
    (skew v * skew v).transpose = skew v * skew v := by
  rw [Matrix.transpose_mul, transpose_skew]
  simp [Matrix.neg_mul, Matrix.mul_neg]

theorem skew_cube (v : RVec3) :
    skew v * skew v * skew v = (-(angle v ^ 2)) • skew v := by
  rw [sq_angle]
  ext i j
  fin_cases i <;> fin_cases j <;>
    (simp [skew, Matrix.mul_apply, Fin.sum_univ_three]; ring)

theorem expSO3_zero : expSO3 0 = 1 := by
  rw [expSO3, if_pos]
  · rw [skew_zero]
    simp
  · simp [angle]

theorem logSO3_one : logSO3 1 = 0 := by
  rw [logSO3, if_pos]
  have h3 : Matrix.trace (1 : RMat3) = 3 := by
    rw [Matrix.trace_one]
    norm_num
  rw [h3]
  norm_num [Real.arccos_one]

theorem trace_expSO3 (v : RVec3) (h : angle v ≠ 0) :
    (expSO3 v).trace = 1 + 2 * Real.cos (angle v) := by
  rw [expSO3, if_neg h, Matrix.trace_add, Matrix.trace_add, Matrix.trace_smul,
    Matrix.trace_smul, trace_skew, trace_skew_mul_skew, Matrix.trace_one]
  have h3 : ((Fintype.card (Fin 3) : ℕ) : ℝ) = 3 := by norm_num
  rw [h3, smul_zero, smul_eq_mul]
  field_simp
  ring

theorem expSO3_sub_transpose (v : RVec3) (h : angle v ≠ 0) :
    expSO3 v - (expSO3 v).transpose
      = (2 * (Real.sin (angle v) / angle v)) • skew v := by
  rw [expSO3, if_neg h, Matrix.transpose_add, Matrix.transpose_add,
    Matrix.transpose_one, Matrix.transpose_smul, Matrix.transpose_smul,
    transpose_skew, skew_mul_skew_transpose, smul_neg]
  have h2 : 2 * (Real.sin (angle v) / angle v) = Real.sin (angle v) / angle v
      + Real.sin (angle v) / angle v := by ring
  rw [h2, add_smul]
  abel

theorem logSO3_expSO3 (v : RVec3) (h : angle v < Real.pi) :
    logSO3 (expSO3 v) = v := by
  rcases eq_or_ne (angle v) 0 with h0 | h0
  · have hv : v = 0 := (angle_eq_zero_iff v).1 h0
    rw [hv, expSO3_zero, logSO3_one]
  · have hpos : 0 < angle v := lt_of_le_of_ne (angle_nonneg v) (Ne.symm h0)
    have harc : Real.arccos ((Matrix.trace (expSO3 v) - 1) / 2) = angle v := by
      rw [trace_expSO3 v h0,
        show (1 + 2 * Real.cos (angle v) - 1) / 2 = Real.cos (angle v) by ring]
      exact Real.arccos_cos (angle_nonneg v) h.le
    have hsin : Real.sin (angle v) ≠ 0 :=
      ne_of_gt (Real.sin_pos_of_pos_of_lt_pi hpos h)
    rw [logSO3, harc, if_neg hsin, expSO3_sub_transpose v h0, vee_smul, vee_skew,
      smul_smul,
      show angle v / (2 * Real.sin (angle v)) * (2 * (Real.sin (angle v) / angle v))
        = 1 by field_simp]
    exact one_smul _ _

/-- Modelled from the spec: the closed-form left Jacobian of the rotation
exponential, the coefficient matrix through which the extended-pose
exponential maps the linear slots of the twist (so that one exponential
propagates orientation, velocity and position consistently, §3); with the
standard second/third-order Taylor-series fallback at zero rotation angle. -/
noncomputable def leftJacobian (v : RVec3) : RMat3 :=
  if angle v = 0 then 1 + ((1 : ℝ) / 2) • skew v + ((1 : ℝ) / 6) • (skew v * skew v)
  else 1 + ((1 - Real.cos (angle v)) / angle v ^ 2) • skew v
    + ((angle v - Real.sin (angle v)) / angle v ^ 3) • (skew v * skew v)

/-- Modelled from the spec: the closed-form inverse left Jacobian used by the
extended-pose logarithm, with its Taylor-series fallback at zero angle. -/
noncomputable def leftJacobianInv (v : RVec3) : RMat3 :=
  if angle v = 0 then 1 - ((1 : ℝ) / 2) • skew v + ((1 : ℝ) / 12) • (skew v * skew v)
  else 1 - ((1 : ℝ) / 2) • skew v
    + ((1 / angle v ^ 2) * (1 - angle v * Real.sin (angle v) /
        (2 * (1 - Real.cos (angle v))))) • (skew v * skew v)

/-- Modelled from the spec: the closed-form exponential map on the
extended-pose group (§4.1): rotation by the Rodrigues formula, the velocity
and position slots through the left Jacobian — no iterative solve. -/
noncomputable def expSE23 (w a nu : RVec3) : SE23 ℝ :=
  ⟨expSO3 w, (leftJacobian w).mulVec a, (leftJacobian w).mulVec nu⟩

/-- Modelled from the spec: the closed-form logarithm map on the extended-pose
group: rotation part through the rotation logarithm, the velocity and position
slots through the inverse left Jacobian at the recovered rotation vector. -/
noncomputable def logSE23 (T : SE23 ℝ) : RVec3 × RVec3 × RVec3 :=
  (logSO3 T.R, (leftJacobianInv (logSO3 T.R)).mulVec T.v,
    (leftJacobianInv (logSO3 T.R)).mulVec T.p)

theorem jacobian_product_expand (K : RMat3) (e b c d t : ℝ)
    (hK3 : K * K * K = (-t) • K)
    (h1 : b + e + (-t) * (c * e) + (-t) * (d * b) = 0)
    (h2 : c + b * e + d + (-t) * (d * c) = 0) :
    (1 + e • K + d • (K * K)) * (1 + b • K + c • (K * K)) = 1 := by
  have hK3' : K * (K * K) = (-t) • K := by rw [← mul_assoc]; exact hK3
  have hK4 : K * K * (K * K) = (-t) • (K * K) := by
    rw [← mul_assoc, hK3, smul_mul_assoc]
  have hexp : (1 + e • K + d • (K * K)) * (1 + b • K + c • (K * K))
      = 1 + (b + e + (-t) * (c * e) + (-t) * (d * b)) • K
        + (c + b * e + d + (-t) * (d * c)) • (K * K) := by
    simp only [mul_add, add_mul, one_mul, mul_one, smul_mul_assoc,
      mul_smul_comm, smul_smul, hK3, hK3', hK4]
    module
  rw [hexp, h1, h2, zero_smul, zero_smul, add_zero, add_zero]

theorem jacobian_coeff_one (th : ℝ) (h0 : th ≠ 0)
    (h1c : 1 - Real.cos th ≠ 0) :
    (1 - Real.cos th) / th ^ 2 + (-(1 / 2) : ℝ)
      + (-(th ^ 2)) * ((th - Real.sin th) / th ^ 3 * (-(1 / 2)))
      + (-(th ^ 2)) * ((1 / th ^ 2) * (1 - th * Real.sin th /
          (2 * (1 - Real.cos th))) * ((1 - Real.cos th) / th ^ 2)) = 0 := by
  field_simp
  ring

theorem jacobian_coeff_two (th : ℝ) (h0 : th ≠ 0)
    (h1c : 1 - Real.cos th ≠ 0) :
    (th - Real.sin th) / th ^ 3 + (1 - Real.cos th) / th ^ 2 * (-(1 / 2) : ℝ)
      + (1 / th ^ 2) * (1 - th * Real.sin th / (2 * (1 - Real.cos th)))
      + (-(th ^ 2)) * ((1 / th ^ 2) * (1 - th * Real.sin th /
          (2 * (1 - Real.cos th))) * ((th - Real.sin th) / th ^ 3)) = 0 := by
  have hs := Real.sin_sq_add_cos_sq th
  field_simp
  linear_combination (-(4 * th ^ 10) * (1 - Real.cos th)) * hs

theorem cos_angle_ne_one (v : RVec3) (h0 : angle v ≠ 0)
    (h : angle v < Real.pi) : Real.cos (angle v) ≠ 1 := by
  intro hcontra
  have hpos : 0 < angle v := lt_of_le_of_ne (angle_nonneg v) (Ne.symm h0)
  have hz := (Real.cos_eq_one_iff_of_lt_of_lt
    (by linarith [Real.pi_pos]) (by linarith [Real.pi_pos])).1 hcontra
  exact h0 hz

theorem leftJacobianInv_mul_leftJacobian (v : RVec3) (h : angle v < Real.pi) :
    leftJacobianInv v * leftJacobian v = 1 := by
  rcases eq_or_ne (angle v) 0 with h0 | h0
  · have hv : v = 0 := (angle_eq_zero_iff v).1 h0
    subst hv
    rw [leftJacobian, leftJacobianInv, if_pos, if_pos, skew_zero] <;>
      simp [angle]
  · have hcne := cos_angle_ne_one v h0 h
    have h1c : 1 - Real.cos (angle v) ≠ 0 := sub_ne_zero.2 (Ne.symm hcne)
    have hform : ∀ (dd : ℝ) (M N : RMat3),
        (1 : RMat3) - ((1 : ℝ) / 2) • M + dd • N = 1 + (-(1 / 2) : ℝ) • M + dd • N := by
      intro dd M N
      module
    rw [leftJacobian, leftJacobianInv, if_neg h0, if_neg h0, hform]
    exact jacobian_product_expand (skew v) (-(1 / 2))
      ((1 - Real.cos (angle v)) / angle v ^ 2)
      ((angle v - Real.sin (angle v)) / angle v ^ 3)
      ((1 / angle v ^ 2) * (1 - angle v * Real.sin (angle v) /
        (2 * (1 - Real.cos (angle v)))))
      (angle v ^ 2) (skew_cube v)
      (jacobian_coeff_one (angle v) h0 h1c)
      (jacobian_coeff_two (angle v) h0 h1c)

theorem logSE23_expSE23 (w a nu : RVec3) (h : angle w < Real.pi) :
    logSE23 (expSE23 w a nu) = (w, a, nu) := by
  have hw : logSO3 (expSO3 w) = w := logSO3_expSO3 w h
  have hJ : leftJacobianInv w * leftJacobian w = 1 :=
    leftJacobianInv_mul_leftJacobian w h
  simp only [logSE23, expSE23, hw, Matrix.mulVec_mulVec, hJ, Matrix.one_mulVec]

theorem expSE23_logSE23 (T : SE23 ℝ) (h : notAtCutLocus T.R) :
    expSE23 (logSE23 T).1 (logSE23 T).2.1 (logSE23 T).2.2 = T := by
  obtain ⟨u, hu, hR⟩ := h
  have hlog : logSO3 T.R = u := by rw [hR]; exact logSO3_expSO3 u hu
  have hJ : leftJacobian u * leftJacobianInv u = 1 :=
    Matrix.mul_eq_one_comm.1 (leftJacobianInv_mul_leftJacobian u hu)
  simp only [logSE23, expSE23, hlog, Matrix.mulVec_mulVec, hJ,
    Matrix.one_mulVec]
  rw [← hR]

/-- C6: the exponential and logarithm maps of the algebraic primitives are
mutually inverse — on the rotation group, `log (exp v) = v` for every tangent
vector in the valid neighborhood (rotation angle below π) and
`exp (log M) = M` for every rotation not at the cut locus; and on the
extended-pose group, the same two identities for the full closed-form
extended-pose maps (rotation slot plus left-Jacobian-mapped velocity and
position slots). -/
theorem exp_log_mutually_inverse :
    (∀ v : RVec3, angle v < Real.pi → logSO3 (expSO3 v) = v) ∧
    (∀ M : RMat3, notAtCutLocus M → expSO3 (logSO3 M) = M) ∧
    (∀ w a nu : RVec3, angle w < Real.pi →
      logSE23 (expSE23 w a nu) = (w, a, nu)) ∧
    (∀ T : SE23 ℝ, notAtCutLocus T.R →
      expSE23 (logSE23 T).1 (logSE23 T).2.1 (logSE23 T).2.2 = T) := by
  refine ⟨logSO3_expSO3, ?_, logSE23_expSE23, expSE23_logSE23⟩
  rintro M ⟨v, hv, rfl⟩
  rw [logSO3_expSO3 v hv]

/-- Witness for C6: the tangent vector of unit rotation angle about the x axis
lies in the valid neighborhood (1 < π) and round-trips through the rotation
exponential and logarithm exactly. -/
theorem exp_log_mutually_inverse_witness :
    logSO3 (expSO3 ![1, 0, 0]) = ![1, 0, 0] :=
  exp_log_mutually_inverse.1 ![1, 0, 0] (by
    have h1 : angle ![1, 0, 0] = 1 := by
      norm_num [angle]
    rw [h1]
    linarith [Real.pi_gt_three])

end Algebra

end Symmetry

end MSCEqF
